import Mathlib

/-!
Verification of the descriptor repository's timeline-consolidation core.

The Python sources are shallowly embedded here:
* difflib.SequenceMatcher (the similarity backend of are_similar) over List Char,
* des-group.py: are_similar, convert_timestamp_format, collapse_noisy_json,
  process_description_file's structure dispatch and scene merge, main's tally loop,
* scene-extractor.py: parse_timestamp, extract_scene_changes' stderr parsing,
  create_scene_segments, format_timestamp.

Strings are modelled as Lean String / List Char, Python floats as ℚ, Python dicts
as association lists (with a no-duplicate-keys hypothesis where it matters), and
fallible code as Option.
-/

/-! ## Python string order (code-point lexicographic, as used by sorted()) -/

/-- Strict lexicographic order on code points, Python's `<` on strings. -/
def charListLt : List Char → List Char → Bool
  | [], [] => false
  | [], _ :: _ => true
  | _ :: _, [] => false
  | x :: xs, y :: ys =>
    if x.val.toNat < y.val.toNat then true
    else if y.val.toNat < x.val.toNat then false
    else charListLt xs ys

/-- Lexicographic `≤` on code points, Python's `<=` on strings. -/
def charListLe : List Char → List Char → Bool
  | [], _ => true
  | _ :: _, [] => false
  | x :: xs, y :: ys =>
    if x.val.toNat < y.val.toNat then true
    else if y.val.toNat < x.val.toNat then false
    else charListLe xs ys

def pyLt (a b : String) : Bool := charListLt a.data b.data

def pyLe (a b : String) : Bool := charListLe a.data b.data

/-- The ordering relation fed to the model of Python's `sorted`. -/
def pyKeyLe : String → String → Prop := fun a b => pyLe a b = true

instance pyKeyLe.decRel : DecidableRel pyKeyLe :=
  fun a b => inferInstanceAs (Decidable (pyLe a b = true))

theorem charListLe_total (a b : List Char) : charListLe a b = true ∨ charListLe b a = true := by
  induction a generalizing b with
  | nil => left; rfl
  | cons x xs ih =>
    cases b with
    | nil => right; rfl
    | cons y ys =>
      by_cases hxy : x.val.toNat < y.val.toNat
      · left; simp [charListLe, hxy]
      · by_cases hyx : y.val.toNat < x.val.toNat
        · right; simp [charListLe, hyx]
        · rcases ih ys with h | h
          · left; simpa [charListLe, hxy, hyx] using h
          · right; simpa [charListLe, hxy, hyx] using h

theorem charListLe_trans {a b c : List Char} (hab : charListLe a b = true)
    (hbc : charListLe b c = true) : charListLe a c = true := by
  induction a generalizing b c with
  | nil => rfl
  | cons x xs ih =>
    cases b with
    | nil => simp [charListLe] at hab
    | cons y ys =>
      cases c with
      | nil => simp [charListLe] at hbc
      | cons z zs =>
        by_cases hyx : y.val.toNat < x.val.toNat
        · simp [charListLe, show ¬ x.val.toNat < y.val.toNat by omega, hyx] at hab
        · by_cases hzy : z.val.toNat < y.val.toNat
          · simp [charListLe, show ¬ y.val.toNat < z.val.toNat by omega, hzy] at hbc
          · by_cases hxy : x.val.toNat < y.val.toNat
            · have hxz : x.val.toNat < z.val.toNat := by omega
              simp [charListLe, hxz]
            · by_cases hyz : y.val.toNat < z.val.toNat
              · have hxz : x.val.toNat < z.val.toNat := by omega
                simp [charListLe, hxz]
              · have hab' : charListLe xs ys = true := by
                  simpa [charListLe, hxy, hyx] using hab
                have hbc' : charListLe ys zs = true := by
                  simpa [charListLe, hyz, hzy] using hbc
                have hxz : ¬ x.val.toNat < z.val.toNat := by omega
                have hzx : ¬ z.val.toNat < x.val.toNat := by omega
                simpa [charListLe, hxz, hzx] using ih hab' hbc'

instance pyKeyLe.isTotal : IsTotal String pyKeyLe :=
  ⟨fun a b => charListLe_total a.data b.data⟩

instance pyKeyLe.isTrans : IsTrans String pyKeyLe :=
  ⟨fun _ _ _ hab hbc => charListLe_trans hab hbc⟩

theorem charListLt_of_le_of_ne {a b : List Char} (hle : charListLe a b = true)
    (hne : a ≠ b) : charListLt a b = true := by
  induction a generalizing b with
  | nil =>
    cases b with
    | nil => exact absurd rfl hne
    | cons y ys => rfl
  | cons x xs ih =>
    cases b with
    | nil => simp [charListLe] at hle
    | cons y ys =>
      by_cases hxy : x.val.toNat < y.val.toNat
      · simp [charListLt, hxy]
      · by_cases hyx : y.val.toNat < x.val.toNat
        · simp [charListLe, hxy, hyx] at hle
        · have hxyv : x = y := by
            apply Char.ext
            apply UInt32.ext
            omega
          subst hxyv
          have hle' : charListLe xs ys = true := by
            simpa [charListLe, hxy, hyx] using hle
          have hne' : xs ≠ ys := by
            intro h; exact hne (by rw [h])
          simpa [charListLt, hxy, hyx] using ih hle' hne'

/-! ## difflib.SequenceMatcher(None, a, b), the backend of are_similar

Embedded from CPython's difflib with isjunk = None: b2j maps each element of b
to its ascending list of indices, autojunk removes "popular" elements when
len(b) >= 200, find_longest_match runs the j2len dynamic program and then the
two non-junk extension loops (the junk extension loops are dead code here since
the junk set is empty), and get_matching_blocks recurses on both sides of each
longest match.  Only the total matched size is needed for ratio().
-/

/-- Ascending indices of occurrences of c in b (difflib's b2j lists). -/
def indicesOf (c : Char) (b : List Char) : List ℕ :=
  (b.enum.filter (fun p => p.2 = c)).map Prod.fst

/-- difflib b2j lookup with autojunk: for len(b) >= 200, elements occurring
more than len(b)/100 + 1 times are dropped from b2j. -/
def b2jGet (b : List Char) (c : Char) : List ℕ :=
  if 200 ≤ b.length ∧ b.length / 100 + 1 < (indicesOf c b).length then []
  else indicesOf c b

/-- One row of find_longest_match's inner loop: visit the (already blo/bhi
filtered) index row in ascending order, computing k = j2len.get(j-1, 0) + 1
and improving (besti, bestj, bestsize) whenever k is strictly larger. -/
def flmRow (j2len : ℕ → ℕ) (i : ℕ) (row : List ℕ) (best : ℕ × ℕ × ℕ) : ℕ × ℕ × ℕ :=
  row.foldl
    (fun best j =>
      let k := (match j with
        | 0 => 0
        | j' + 1 => j2len j') + 1
      if best.2.2 < k then (i + 1 - k, j + 1 - k, k) else best)
    best

/-- The j2len dictionary produced by one row (entries only at the visited js). -/
def flmNext (j2len : ℕ → ℕ) (row : List ℕ) : ℕ → ℕ :=
  fun j =>
    if row.contains j then
      (match j with
        | 0 => 0
        | j' + 1 => j2len j') + 1
    else 0

/-- The i-loop of find_longest_match. -/
def flmOuter (a b : List Char) (blo bhi : ℕ) :
    List ℕ → (ℕ → ℕ) → ℕ × ℕ × ℕ → ℕ × ℕ × ℕ
  | [], _, best => best
  | i :: is, j2len, best =>
    let row := (b2jGet b (a.getD i default)).filter (fun j => decide (blo ≤ j) && decide (j < bhi))
    flmOuter a b blo bhi is (flmNext j2len row) (flmRow j2len i row best)

/-- The first while loop after the DP: extend the best match leftwards over
equal (non-junk; the junk set is empty) elements. -/
def extendLeft (a b : List Char) (alo blo : ℕ) : ℕ → ℕ × ℕ × ℕ → ℕ × ℕ × ℕ
  | 0, best => best
  | fuel + 1, (bi, bj, bs) =>
    if alo < bi ∧ blo < bj ∧ a.getD (bi - 1) default = b.getD (bj - 1) default then
      extendLeft a b alo blo fuel (bi - 1, bj - 1, bs + 1)
    else (bi, bj, bs)

/-- The second while loop: extend the best match rightwards over equal elements. -/
def extendRight (a b : List Char) (ahi bhi : ℕ) : ℕ → ℕ × ℕ × ℕ → ℕ × ℕ × ℕ
  | 0, best => best
  | fuel + 1, (bi, bj, bs) =>
    if bi + bs < ahi ∧ bj + bs < bhi ∧ a.getD (bi + bs) default = b.getD (bj + bs) default then
      extendRight a b ahi bhi fuel (bi, bj, bs + 1)
    else (bi, bj, bs)

/-- difflib SequenceMatcher.find_longest_match(alo, ahi, blo, bhi). -/
def find_longest_match (a b : List Char) (alo ahi blo bhi : ℕ) : ℕ × ℕ × ℕ :=
  let best := flmOuter a b blo bhi (List.range' alo (ahi - alo)) (fun _ => 0) (alo, blo, 0)
  let best := extendLeft a b alo blo best.1 best
  extendRight a b ahi bhi ahi best

/-- Total size of the matching blocks of get_matching_blocks restricted to
the window (alo, ahi, blo, bhi); fuel-based since each recursive window is
strictly smaller (fuel ahi+bhi+1 suffices at the top level). -/
def matchingSizeAux (a b : List Char) : ℕ → ℕ → ℕ → ℕ → ℕ → ℕ
  | 0, _, _, _, _ => 0
  | fuel + 1, alo, ahi, blo, bhi =>
    let m := find_longest_match a b alo ahi blo bhi
    if m.2.2 = 0 then 0
    else
      m.2.2 + matchingSizeAux a b fuel alo m.1 blo m.2.1 +
        matchingSizeAux a b fuel (m.1 + m.2.2) ahi (m.2.1 + m.2.2) bhi

/-- M: the total number of matched characters over the whole strings. -/
def matchesTotal (a b : List Char) : ℕ :=
  matchingSizeAux a b (a.length + b.length + 1) 0 a.length 0 b.length

/-- difflib's _calculate_ratio: 2·M/T, and 1.0 when both sequences are empty. -/
def calcRatioFn (m length : ℕ) : ℚ :=
  if length = 0 then 1 else 2 * (m : ℚ) / (length : ℚ)

/-- SequenceMatcher(None, a, b).ratio() as an exact rational. -/
def ratioQ (a b : List Char) : ℚ :=
  calcRatioFn (matchesTotal a b) (a.length + b.length)

/-- des-group.py are_similar: SequenceMatcher(None, a, b).ratio() > threshold. -/
def are_similar (a b : String) (threshold : ℚ) : Bool :=
  decide (ratioQ a.data b.data > threshold)

theorem are_similar_eq_true_iff {a b : String} {t : ℚ} :
    are_similar a b t = true ↔ ratioQ a.data b.data > t := by
  simp [are_similar]

theorem are_similar_eq_false_iff {a b : String} {t : ℚ} :
    are_similar a b t = false ↔ ¬ ratioQ a.data b.data > t := by
  simp [are_similar]

/-- C4: are_similar returns true iff the normalized ratio 2·M/T is strictly
greater than the threshold t; at ratio = t exactly it returns false.  (For
T = 0, difflib defines the ratio to be 1.) -/
theorem are_similar_strict_boundary (a b : String) (t : ℚ)
    (ht0 : 0 ≤ t) (ht1 : t ≤ 1) :
    (a.data.length + b.data.length ≠ 0 →
      (are_similar a b t = true ↔
        2 * (matchesTotal a.data b.data : ℚ) /
          ((a.data.length : ℚ) + (b.data.length : ℚ)) > t)) ∧
    (ratioQ a.data b.data = t → are_similar a b t = false) := by
  constructor
  · intro hT
    rw [are_similar_eq_true_iff]
    unfold ratioQ calcRatioFn
    rw [if_neg hT]
    push_cast
    rfl
  · intro hr
    rw [are_similar_eq_false_iff, hr]
    exact lt_irrefl t

theorem are_similar_strict_boundary_witness :
    (0 : ℚ) ≤ 1 ∧ (1 : ℚ) ≤ 1 ∧ ratioQ "ab".data "ab".data = 1 ∧
      are_similar "ab" "ab" 1 = false := by
  have hm : matchesTotal "ab".data "ab".data = 2 := by decide
  have hr : ratioQ "ab".data "ab".data = 1 := by
    unfold ratioQ
    rw [hm]
    norm_num [calcRatioFn]
  exact ⟨le_of_lt one_pos, le_refl 1, hr,
    (are_similar_strict_boundary "ab" "ab" 1 (le_of_lt one_pos) (le_refl 1)).2 hr⟩

/-! ## des-group.py convert_timestamp_format (TimestampCodec.canonicalize) -/

/-- Python str.strip(chars): drop the given characters from both ends. -/
def stripChars (l : List Char) (cs : List Char) : List Char :=
  ((l.dropWhile (fun c => cs.contains c)).reverse.dropWhile (fun c => cs.contains c)).reverse

/-- Python str.split(sep) for a one-character separator: always nonempty,
keeps empty fields ("".split(c) = [""], "a::b".split(":") = ["a","","b"]). -/
def splitOnChar (c : Char) : List Char → List (List Char)
  | [] => [[]]
  | x :: xs =>
    let r := splitOnChar c xs
    if x = c then [] :: r
    else
      match r with
      | [] => [[x]]
      | y :: ys => (x :: y) :: ys

/-- Python str.zfill(width): left-pad with '0' up to width, keeping a leading
sign character in front of the padding. -/
def zfill (s : String) (width : ℕ) : String :=
  let l := s.data
  if width ≤ l.length then s
  else
    match l with
    | c :: rest =>
      if c = '+' ∨ c = '-' then String.mk (c :: (List.replicate (width - l.length) '0' ++ rest))
      else String.mk (List.replicate (width - l.length) '0' ++ l)
    | [] => String.mk (List.replicate (width - l.length) '0')

/-- des-group.py convert_timestamp_format: [HHH:MM:SS] → HH:MM:SS.mmm; inputs
already containing both '.' and ':' pass through, as does anything that does
not split into exactly three colon fields. -/
def convert_timestamp_format (timestamp : String) : String :=
  if timestamp.data.contains '.' && timestamp.data.contains ':' then timestamp
  else
    let clean_timestamp := stripChars timestamp.data ['[', ']']
    let parts := splitOnChar ':' clean_timestamp
    match parts with
    | [hours, minutes, seconds] =>
      zfill (String.mk hours) 2 ++ ":" ++ zfill (String.mk minutes) 2 ++ ":" ++
        zfill (String.mk seconds) 2 ++ ".000"
    | _ => timestamp

/-- C5: convert_timestamp_format is total; inputs with both ':' and '.' are
returned unchanged; otherwise a bracket-stripped three-field split is zero-
padded to width 2 per field and given a ".000" millisecond suffix; any other
input is returned unchanged. -/
theorem convert_timestamp_format_cases :
    (∀ s : String, s.data.contains '.' = true → s.data.contains ':' = true →
      convert_timestamp_format s = s) ∧
    (∀ (s : String) (h m sec : List Char),
      ¬ (s.data.contains '.' = true ∧ s.data.contains ':' = true) →
      splitOnChar ':' (stripChars s.data ['[', ']']) = [h, m, sec] →
      convert_timestamp_format s =
        zfill (String.mk h) 2 ++ ":" ++ zfill (String.mk m) 2 ++ ":" ++
          zfill (String.mk sec) 2 ++ ".000") ∧
    (∀ s : String,
      ¬ (s.data.contains '.' = true ∧ s.data.contains ':' = true) →
      (splitOnChar ':' (stripChars s.data ['[', ']'])).length ≠ 3 →
      convert_timestamp_format s = s) := by
  refine ⟨?_, ?_, ?_⟩
  · intro s h1 h2
    unfold convert_timestamp_format
    rw [h1, h2]
    rfl
  · intro s h m sec hno hsplit
    have hb : (s.data.contains '.' && s.data.contains ':') = false := by
      cases hc1 : s.data.contains '.' with
      | false => simp
      | true =>
        cases hc2 : s.data.contains ':' with
        | false => simp
        | true => exact absurd ⟨hc1, hc2⟩ hno
    unfold convert_timestamp_format
    rw [hb]
    simp only [Bool.false_eq_true, if_false, hsplit]
  · intro s hno hlen
    have hb : (s.data.contains '.' && s.data.contains ':') = false := by
      cases hc1 : s.data.contains '.' with
      | false => simp
      | true =>
        cases hc2 : s.data.contains ':' with
        | false => simp
        | true => exact absurd ⟨hc1, hc2⟩ hno
    unfold convert_timestamp_format
    rw [hb]
    simp only [Bool.false_eq_true, if_false]
    rcases hp : splitOnChar ':' (stripChars s.data ['[', ']']) with _ | ⟨p1, _ | ⟨p2, _ | ⟨p3, _ | ⟨p4, ps⟩⟩⟩⟩ <;>
      simp_all

theorem convert_timestamp_format_cases_witness :
    ("00:00:01.000".data.contains '.' = true ∧ "00:00:01.000".data.contains ':' = true ∧
      convert_timestamp_format "00:00:01.000" = "00:00:01.000") ∧
    (¬ ("[000:00:05]".data.contains '.' = true ∧ "[000:00:05]".data.contains ':' = true) ∧
      splitOnChar ':' (stripChars "[000:00:05]".data ['[', ']']) =
        ["000".data, "00".data, "05".data] ∧
      convert_timestamp_format "[000:00:05]" = "000:00:05.000") ∧
    (¬ ("hello".data.contains '.' = true ∧ "hello".data.contains ':' = true) ∧
      (splitOnChar ':' (stripChars "hello".data ['[', ']'])).length ≠ 3 ∧
      convert_timestamp_format "hello" = "hello") := by
  have h2 := convert_timestamp_format_cases.2.1 "[000:00:05]"
    "000".data "00".data "05".data (by decide) (by decide)
  have h3 := convert_timestamp_format_cases.2.2 "hello" (by decide) (by decide)
  refine ⟨⟨by decide, by decide,
      convert_timestamp_format_cases.1 "00:00:01.000" (by decide) (by decide)⟩,
    ⟨by decide, by decide, ?_⟩, ⟨by decide, by decide, h3⟩⟩
  rw [h2]
  decide

/-! ## des-group.py collapse_noisy_json (RunGrouper) -/

structure TimelineSeg where
  start_time : String
  end_time : String
  description : String
deriving DecidableEq

/-- The loop of collapse_noisy_json (lines 117-150): the current run has fixed
anchor description anchor_desc, start key start_time and last absorbed key
last_time; each further sample is compared against the anchor. -/
def collapseGo (threshold : ℚ) (start_time anchor_desc last_time : String) :
    List (String × String) → List TimelineSeg
  | [] =>
    [⟨convert_timestamp_format start_time, convert_timestamp_format last_time, anchor_desc⟩]
  | (current_time, current_desc) :: rest =>
    if are_similar anchor_desc current_desc threshold then
      collapseGo threshold start_time anchor_desc current_time rest
    else
      ⟨convert_timestamp_format start_time, convert_timestamp_format last_time, anchor_desc⟩ ::
        collapseGo threshold current_time current_desc current_time rest

/-- collapse_noisy_json applied to the already-sorted sample sequence. -/
def collapseCore (threshold : ℚ) : List (String × String) → List TimelineSeg
  | [] => []
  | (t, d) :: rest => collapseGo threshold t d t rest

/-- sorted(json_data.keys()): Python's sort on code-point order. -/
def sortedKeys (json_data : List (String × String)) : List String :=
  List.insertionSort pyKeyLe (json_data.map Prod.fst)

/-- json_data[k] for a key of the dict (modelled with a default for totality). -/
def dictLookup (json_data : List (String × String)) (k : String) : String :=
  (json_data.lookup k).getD ""

/-- The sample sequence visited by the loop: sorted keys with their values. -/
def sortedSamples (json_data : List (String × String)) : List (String × String) :=
  (sortedKeys json_data).map (fun k => (k, dictLookup json_data k))

/-- des-group.py collapse_noisy_json over a dict modelled as an assoc list. -/
def collapse_noisy_json (json_data : List (String × String)) (threshold : ℚ) :
    List TimelineSeg :=
  collapseCore threshold (sortedSamples json_data)

/-- The segment a run (nonempty block of consecutive samples) is emitted as. -/
def blockSeg (b : List (String × String)) : TimelineSeg :=
  ⟨convert_timestamp_format (b.headD ("", "")).1,
   convert_timestamp_format ((b.getLast?.getD ("", ""))).1,
   (b.headD ("", "")).2⟩

/-- The anchor description of a run: its first sample's text. -/
def headDesc (b : List (String × String)) : String := (b.headD ("", "")).2

theorem charListLt_irrefl (l : List Char) : charListLt l l = false := by
  induction l with
  | nil => rfl
  | cons x xs ih => simpa [charListLt] using ih

theorem pyLt_ne {a b : String} (h : pyLt a b = true) : a ≠ b := by
  intro hab
  rw [hab] at h
  rw [pyLt, charListLt_irrefl] at h
  exact Bool.false_ne_true h

theorem charListLe_of_lt {a b : List Char} (h : charListLt a b = true) :
    charListLe a b = true := by
  induction a generalizing b with
  | nil => rfl
  | cons x xs ih =>
    cases b with
    | nil => simp [charListLt] at h
    | cons y ys =>
      by_cases hxy : x.val.toNat < y.val.toNat
      · simp [charListLe, hxy]
      · by_cases hyx : y.val.toNat < x.val.toNat
        · simp [charListLt, hxy, hyx] at h
        · have h' : charListLt xs ys = true := by simpa [charListLt, hxy, hyx] using h
          simpa [charListLe, hxy, hyx] using ih h'

theorem pyKeyLe_of_lt {a b : String} (h : pyLt a b = true) : pyKeyLe a b :=
  charListLe_of_lt h

theorem string_data_inj {a b : String} (h : a.data = b.data) : a = b :=
  congrArg String.mk h

/-- In a dict (no duplicate keys), lookup of a member's key gives its value. -/
theorem lookup_eq_of_mem_of_nodup :
    ∀ (l : List (String × String)), (l.map Prod.fst).Nodup →
      ∀ p ∈ l, l.lookup p.1 = some p.2 := by
  intro l
  induction l with
  | nil => intro _ p hp; simp at hp
  | cons q tl ih =>
    intro hnd p hp
    have hnd2 : (q.1 :: tl.map Prod.fst).Nodup := by simpa using hnd
    have hq : q.1 ∉ tl.map Prod.fst := (List.nodup_cons.mp hnd2).1
    have hnd' : (tl.map Prod.fst).Nodup := (List.nodup_cons.mp hnd2).2
    rcases List.mem_cons.mp hp with hp' | hp'
    · subst hp'
      simp [List.lookup]
    · have hne : p.1 ≠ q.1 := by
        intro hcontra
        exact hq (hcontra ▸ List.mem_map.mpr ⟨p, hp', rfl⟩)
      have hbeq : (p.1 == q.1) = false := beq_eq_false_iff_ne.mpr hne
      rw [List.lookup, hbeq]
      exact ih hnd' p hp'

/-- Invariant of the grouping loop: processing rest from a run whose anchor is
a, start key s and last key l yields the current run closed at the last key it
absorbs, followed by segments of a partition of the remaining samples into
nonempty runs whose anchors are pairwise-adjacently dissimilar. -/
theorem collapseGo_partition (threshold : ℚ) :
    ∀ (rest : List (String × String)) (s a l : String),
    ∃ (ext : List (String × String)) (bs : List (List (String × String))),
      ext ++ bs.join = rest ∧
      (∀ b ∈ bs, b ≠ []) ∧
      collapseGo threshold s a l rest =
        ⟨convert_timestamp_format s,
         convert_timestamp_format (((ext.getLast?).map Prod.fst).getD l), a⟩ ::
          bs.map blockSeg ∧
      List.Chain' (fun x y => are_similar x y threshold = false) (a :: bs.map headDesc) := by
  intro rest
  induction rest with
  | nil =>
    intro s a l
    exact ⟨[], [], rfl, by simp, by simp [collapseGo], by simp⟩
  | cons hd tl ih =>
    intro s a l
    obtain ⟨t, d⟩ := hd
    cases hsim : are_similar a d threshold with
    | true =>
      obtain ⟨ext, bs, hjoin, hne, heq, hch⟩ := ih s a t
      refine ⟨(t, d) :: ext, bs, by simp [hjoin], hne, ?_, hch⟩
      have hkey :
          ((((t, d) :: ext).getLast?).map Prod.fst).getD l =
            ((ext.getLast?).map Prod.fst).getD t := by
        cases ext with
        | nil => simp
        | cons e es =>
          obtain ⟨q, hq⟩ :=
            Option.isSome_iff_exists.mp (List.getLast?_isSome.mpr (List.cons_ne_nil e es))
          simp [List.getLast?_cons_cons, hq]
      rw [collapseGo, if_pos hsim, heq, hkey]
    | false =>
      obtain ⟨ext, bs, hjoin, hne, heq, hch⟩ := ih t d t
      refine ⟨[], ((t, d) :: ext) :: bs, by simp [← hjoin], ?_, ?_, ?_⟩
      · intro b hb
        rcases List.mem_cons.mp hb with hb' | hb'
        · subst hb'; simp
        · exact hne b hb'
      · have hhead : blockSeg ((t, d) :: ext) =
            ⟨convert_timestamp_format t,
             convert_timestamp_format (((ext.getLast?).map Prod.fst).getD t), d⟩ := by
          cases ext with
          | nil => simp [blockSeg]
          | cons e es =>
            simp only [blockSeg, List.getLast?_cons_cons, List.headD_cons]
            cases hlast : (e :: es).getLast? with
            | none => simp [List.getLast?_eq_none_iff] at hlast
            | some q => simp
        rw [collapseGo, if_neg (by simp [hsim]), heq]
        simp [hhead]
      · have hhd : headDesc ((t, d) :: ext) = d := by simp [headDesc]
        rw [List.map_cons, hhd, List.chain'_cons]
        exact ⟨hsim, hch⟩

theorem blockSeg_cons (t d : String) (ext : List (String × String)) :
    blockSeg ((t, d) :: ext) =
      ⟨convert_timestamp_format t,
       convert_timestamp_format (((ext.getLast?).map Prod.fst).getD t), d⟩ := by
  cases ext with
  | nil => simp [blockSeg]
  | cons e es =>
    obtain ⟨q, hq⟩ :=
      Option.isSome_iff_exists.mp (List.getLast?_isSome.mpr (List.cons_ne_nil e es))
    simp [blockSeg, List.getLast?_cons_cons, hq]

theorem sortedSamples_perm (json_data : List (String × String))
    (hnd : (json_data.map Prod.fst).Nodup) :
    (sortedSamples json_data).Perm json_data := by
  have hkeys : (sortedKeys json_data).Perm (json_data.map Prod.fst) :=
    List.perm_insertionSort pyKeyLe (json_data.map Prod.fst)
  have hmap :
      (json_data.map Prod.fst).map (fun k => (k, dictLookup json_data k)) = json_data := by
    rw [List.map_map]
    have : ∀ p ∈ json_data, ((fun k => (k, dictLookup json_data k)) ∘ Prod.fst) p = id p := by
      intro p hp
      have := lookup_eq_of_mem_of_nodup json_data hnd p hp
      simp [dictLookup, this]
    rw [List.map_congr_left this, List.map_id]
  have h1 : (sortedSamples json_data).Perm
      ((json_data.map Prod.fst).map (fun k => (k, dictLookup json_data k))) :=
    hkeys.map (fun k => (k, dictLookup json_data k))
  rw [hmap] at h1
  exact h1

theorem sortedSamples_pairwise_lt (json_data : List (String × String))
    (hnd : (json_data.map Prod.fst).Nodup) :
    List.Pairwise (fun p q : String × String => pyLt p.1 q.1 = true)
      (sortedSamples json_data) := by
  have hsorted : List.Pairwise pyKeyLe (sortedKeys json_data) :=
    List.sorted_insertionSort pyKeyLe (json_data.map Prod.fst)
  have hnodup : (sortedKeys json_data).Nodup :=
    ((List.perm_insertionSort pyKeyLe (json_data.map Prod.fst)).nodup_iff).mpr hnd
  have hlt : List.Pairwise (fun a b : String => pyLt a b = true) (sortedKeys json_data) := by
    refine (hsorted.and hnodup).imp ?_
    intro a b hab
    exact charListLt_of_le_of_ne hab.1 (fun h => hab.2 (string_data_inj h))
  rw [sortedSamples, List.pairwise_map]
  exact hlt

/-- C3: on a caption dict with distinct keys, the emitted timeline corresponds
to a partition of the chronologically sorted sample sequence into nonempty
consecutive runs: every sample is covered exactly once (the joined runs are
exactly the sorted samples, a permutation of the input), the joined samples
are strictly increasing in key order (so segments are ordered, contiguous and
non-overlapping), each segment is its run's first/last key with the run's
anchor description, and adjacent segments have dissimilar descriptions. -/
theorem collapse_noisy_json_timeline_invariant (json_data : List (String × String))
    (threshold : ℚ) (hnd : (json_data.map Prod.fst).Nodup) :
    ∃ bs : List (List (String × String)),
      bs.join = sortedSamples json_data ∧
      (bs.join).Perm json_data ∧
      List.Pairwise (fun p q : String × String => pyLt p.1 q.1 = true) bs.join ∧
      (∀ b ∈ bs, b ≠ []) ∧
      collapse_noisy_json json_data threshold = bs.map blockSeg ∧
      List.Chain' (fun s1 s2 => are_similar s1.description s2.description threshold = false)
        (collapse_noisy_json json_data threshold) := by
  have hperm := sortedSamples_perm json_data hnd
  have hpw := sortedSamples_pairwise_lt json_data hnd
  cases hss : sortedSamples json_data with
  | nil =>
    rw [hss] at hperm hpw
    refine ⟨[], by simp [hss], by simpa using hperm, by simpa using hpw, by simp, ?_, ?_⟩
    · simp [collapse_noisy_json, hss, collapseCore]
    · simp [collapse_noisy_json, hss, collapseCore]
  | cons hd rest =>
    obtain ⟨t, d⟩ := hd
    rw [hss] at hperm hpw
    obtain ⟨ext, bs', hjoin, hne, heq, hch⟩ := collapseGo_partition threshold rest t d t
    have hout : collapse_noisy_json json_data threshold =
        (((t, d) :: ext) :: bs').map blockSeg := by
      rw [collapse_noisy_json, hss, collapseCore, heq, List.map_cons, blockSeg_cons]
    refine ⟨((t, d) :: ext) :: bs', ?_, ?_, ?_, ?_, hout, ?_⟩
    · simp [hss, hjoin]
    · simpa [hjoin] using hperm
    · simpa [hjoin] using hpw
    · intro b hb
      rcases List.mem_cons.mp hb with hb' | hb'
      · subst hb'; simp
      · exact hne b hb'
    · rw [hout]
      rw [List.chain'_map]
      have hmapped : (d :: bs'.map headDesc) = (((t, d) :: ext) :: bs').map headDesc := by
        simp [headDesc]
      rw [hmapped] at hch
      exact (List.chain'_map headDesc).mp hch

theorem collapse_noisy_json_timeline_invariant_witness :
    (([("000:00:01.000", "pq"), ("000:00:00.000", "xy")].map Prod.fst).Nodup) ∧
    (∃ bs : List (List (String × String)),
      bs.join = sortedSamples [("000:00:01.000", "pq"), ("000:00:00.000", "xy")] ∧
      (bs.join).Perm [("000:00:01.000", "pq"), ("000:00:00.000", "xy")] ∧
      List.Pairwise (fun p q : String × String => pyLt p.1 q.1 = true) bs.join ∧
      (∀ b ∈ bs, b ≠ []) ∧
      collapse_noisy_json [("000:00:01.000", "pq"), ("000:00:00.000", "xy")] (1/2) =
        bs.map blockSeg ∧
      List.Chain' (fun s1 s2 => are_similar s1.description s2.description (1/2) = false)
        (collapse_noisy_json [("000:00:01.000", "pq"), ("000:00:00.000", "xy")] (1/2))) :=
  ⟨by decide,
    collapse_noisy_json_timeline_invariant
      [("000:00:01.000", "pq"), ("000:00:00.000", "xy")] (1/2) (by decide)⟩

theorem charListLt_le_asymm {a b : List Char} (h1 : charListLt a b = true)
    (h2 : charListLe b a = true) : False := by
  induction a generalizing b with
  | nil =>
    cases b with
    | nil => simp [charListLt] at h1
    | cons y ys => simp [charListLe] at h2
  | cons x xs ih =>
    cases b with
    | nil => simp [charListLt] at h1
    | cons y ys =>
      by_cases hxy : x.val.toNat < y.val.toNat
      · simp [charListLe, show ¬ y.val.toNat < x.val.toNat by omega, hxy] at h2
      · by_cases hyx : y.val.toNat < x.val.toNat
        · simp [charListLt, hxy, hyx] at h1
        · exact ih (by simpa [charListLt, hxy, hyx] using h1)
            (by simpa [charListLe, hxy, hyx] using h2)

/-- C2: anchor fixation.  For a three-sample input A, B, C in increasing key
order with similar(A,B), similar(B,C) but not similar(A,C), collapse_noisy_json
emits exactly two segments: [A..B] described by A's text, and the singleton
[C..C] described by C's text — B and C are compared against the run's original
anchor A, not against the previous sample. -/
theorem collapse_noisy_json_anchor_fixation
    (ta tb tc da db dc : String) (threshold : ℚ)
    (hab : pyLt ta tb = true) (hbc : pyLt tb tc = true)
    (hsim_ab : are_similar da db threshold = true)
    (hsim_bc : are_similar db dc threshold = true)
    (hsim_ac : are_similar da dc threshold = false) :
    collapse_noisy_json [(ta, da), (tb, db), (tc, dc)] threshold =
      [⟨convert_timestamp_format ta, convert_timestamp_format tb, da⟩,
       ⟨convert_timestamp_format tc, convert_timestamp_format tc, dc⟩] := by
  have hle_ab : pyKeyLe ta tb := pyKeyLe_of_lt hab
  have hle_bc : pyKeyLe tb tc := pyKeyLe_of_lt hbc
  have hba : (tb == ta) = false := beq_eq_false_iff_ne.mpr (Ne.symm (pyLt_ne hab))
  have hcb : (tc == tb) = false := beq_eq_false_iff_ne.mpr (Ne.symm (pyLt_ne hbc))
  have hca : (tc == ta) = false := by
    refine beq_eq_false_iff_ne.mpr ?_
    intro h
    rw [h] at hbc
    exact charListLt_le_asymm hbc hle_ab
  have hkeys : sortedKeys [(ta, da), (tb, db), (tc, dc)] = [ta, tb, tc] := by
    simp [sortedKeys, List.insertionSort, List.orderedInsert, hle_ab, hle_bc]
  have hsamples : sortedSamples [(ta, da), (tb, db), (tc, dc)] =
      [(ta, da), (tb, db), (tc, dc)] := by
    simp [sortedSamples, hkeys, dictLookup, List.lookup, hba, hcb, hca]
  rw [collapse_noisy_json, hsamples, collapseCore]
  simp [collapseGo, hsim_ab, hsim_ac]

theorem collapse_noisy_json_anchor_fixation_witness :
    pyLt "000:00:00" "000:00:01" = true ∧
    pyLt "000:00:01" "000:00:02" = true ∧
    are_similar "abcd" "abcdef" (3/5) = true ∧
    are_similar "abcdef" "cdefgh" (3/5) = true ∧
    are_similar "abcd" "cdefgh" (3/5) = false ∧
    collapse_noisy_json
        [("000:00:00", "abcd"), ("000:00:01", "abcdef"), ("000:00:02", "cdefgh")] (3/5) =
      [⟨"000:00:00.000", "000:00:01.000", "abcd"⟩,
       ⟨"000:00:02.000", "000:00:02.000", "cdefgh"⟩] := by
  have hab : are_similar "abcd" "abcdef" (3/5) = true := by
    rw [are_similar_eq_true_iff, ratioQ,
      show matchesTotal "abcd".data "abcdef".data = 4 from by decide,
      show "abcd".data.length = 4 from by decide,
      show "abcdef".data.length = 6 from by decide]
    norm_num [calcRatioFn]
  have hbc : are_similar "abcdef" "cdefgh" (3/5) = true := by
    rw [are_similar_eq_true_iff, ratioQ,
      show matchesTotal "abcdef".data "cdefgh".data = 4 from by decide,
      show "abcdef".data.length = 6 from by decide,
      show "cdefgh".data.length = 6 from by decide]
    norm_num [calcRatioFn]
  have hac : are_similar "abcd" "cdefgh" (3/5) = false := by
    rw [are_similar_eq_false_iff, ratioQ,
      show matchesTotal "abcd".data "cdefgh".data = 2 from by decide,
      show "abcd".data.length = 4 from by decide,
      show "cdefgh".data.length = 6 from by decide]
    norm_num [calcRatioFn]
  refine ⟨by decide, by decide, hab, hbc, hac, ?_⟩
  rw [collapse_noisy_json_anchor_fixation "000:00:00" "000:00:01" "000:00:02"
    "abcd" "abcdef" "cdefgh" (3/5) (by decide) (by decide) hab hbc hac]
  decide

/-! ## scene-extractor.py: format_timestamp and create_scene_segments -/

/-- Python float `%` for a positive modulus (result in [0, y) for y > 0). -/
def qmod (x y : ℚ) : ℚ := x - y * ⌊x / y⌋

/-- Round to the nearest integer, ties to even: the rounding used by Python's
round() and by float formatting. -/
def roundHalfEven (x : ℚ) : ℤ :=
  let f := ⌊x⌋
  if x - f < 1/2 then f
  else if 1/2 < x - f then f + 1
  else if f % 2 = 0 then f else f + 1

/-- Python round(q, 3). -/
def roundQ3 (q : ℚ) : ℚ := (roundHalfEven (q * 1000) : ℚ) / 1000

def natToDigits : ℕ → ℕ → List Char
  | 0, _ => []
  | fuel + 1, n =>
    if n < 10 then [Char.ofNat (48 + n)]
    else natToDigits fuel (n / 10) ++ [Char.ofNat (48 + n % 10)]

/-- Decimal rendering of a natural number. -/
def natStr (n : ℕ) : String := String.mk (natToDigits (n + 1) n)

/-- Left-pad a natural's decimal form with zeros to the given width. -/
def zfillNat (width n : ℕ) : String :=
  let s := natStr n
  if width ≤ s.data.length then s
  else String.mk (List.replicate (width - s.data.length) '0' ++ s.data)

/-- Python's {:0wd} integer formatting (sign kept ahead of the zeros). -/
def intZPad (width : ℕ) (n : ℤ) : String :=
  if n < 0 then "-" ++ zfillNat (width - 1) n.natAbs else zfillNat width n.toNat

/-- scene-extractor.py format_timestamp: seconds → HH:MM:SS.mmm with zero-padded
two-digit hours/minutes and the seconds rendered via the 06.3f float format
(three rounded decimals). -/
def format_timestamp (seconds : ℚ) : String :=
  let hours : ℤ := ⌊seconds / 3600⌋
  let minutes : ℤ := ⌊(qmod seconds 3600) / 60⌋
  let secs : ℚ := qmod seconds 60
  let ms : ℤ := roundHalfEven (secs * 1000)
  intZPad 2 hours ++ ":" ++ intZPad 2 minutes ++ ":" ++
    intZPad 2 (ms / 1000) ++ "." ++ intZPad 3 (ms % 1000)

structure SceneChange where
  frame_number : ℕ
  timestamp : String
  seconds : ℚ
  scene_score : ℚ
deriving DecidableEq, Inhabited

structure SceneSeg where
  scene_number : ℕ
  start_time : String
  end_time : String
  duration : ℚ
  scene_changes : List SceneChange
deriving DecidableEq

/-- scene-extractor.py create_scene_segments. -/
def create_scene_segments (scene_changes : List SceneChange) (video_duration : ℚ) :
    List SceneSeg :=
  if scene_changes.isEmpty then
    [⟨1, "00:00:00.000", format_timestamp video_duration, video_duration, []⟩]
  else
    scene_changes.enum.map (fun p =>
      let i := p.1
      let scene_change := p.2
      let end_time :=
        if i < scene_changes.length - 1 then (scene_changes.getD (i + 1) default).timestamp
        else format_timestamp video_duration
      let end_seconds :=
        if i < scene_changes.length - 1 then (scene_changes.getD (i + 1) default).seconds
        else video_duration
      ⟨i + 1, scene_change.timestamp, end_time,
        roundQ3 (end_seconds - scene_change.seconds), [scene_change]⟩)

/-- C7: with no detected change points the whole video is one scene numbered 1
from 00:00:00.000 to the formatted duration; concretely at duration 12.5 the
end is 00:00:12.500 and the stored duration 12.5. -/
theorem create_scene_segments_empty :
    (∀ d : ℚ, create_scene_segments [] d =
      [⟨1, "00:00:00.000", format_timestamp d, d, []⟩]) ∧
    create_scene_segments [] (25/2) =
      [⟨1, "00:00:00.000", "00:00:12.500", 25/2, []⟩] := by
  have hfmt : format_timestamp (25/2) = "00:00:12.500" := by
    have hfloor1 : (⌊(25/2 : ℚ) / 3600⌋ : ℤ) = 0 := by
      rw [Int.floor_eq_iff] <;> norm_num
    have hqmod3600 : qmod (25/2) 3600 = 25/2 := by
      rw [qmod, hfloor1]
      norm_num
    have hfloor2 : (⌊(25/2 : ℚ) / 60⌋ : ℤ) = 0 := by
      rw [Int.floor_eq_iff] <;> norm_num
    have hqmod60 : qmod (25/2) 60 = 25/2 := by
      rw [qmod, hfloor2]
      norm_num
    have hms : roundHalfEven ((25/2 : ℚ) * 1000) = 12500 := by
      rw [show ((25/2 : ℚ) * 1000) = ((12500 : ℤ) : ℚ) by norm_num, roundHalfEven]
      norm_num
    unfold format_timestamp
    simp only [hfloor1, hqmod3600, hfloor2, hqmod60, hms]
    decide
  exact ⟨fun d => rfl, by rw [create_scene_segments, hfmt]; rfl⟩

/-- C1 counterexample: with one change point at 5 s and duration 10 s, the
single emitted interval starts at the change point's timestamp (5 s), not at
time 0 — the span [0 s, 5 s) before the first change is covered by no interval,
so the sequence does not cover [0, d] whenever the first change is after 0. -/
theorem create_scene_segments_not_from_zero :
    (create_scene_segments [⟨7, "0:00:05.000000", 5, 1/2⟩] 10).map SceneSeg.start_time =
      ["0:00:05.000000"] ∧
    ("0:00:05.000000" : String) ≠ "00:00:00.000" ∧
    ((⟨7, "0:00:05.000000", 5, 1/2⟩ : SceneChange)).seconds ≠ 0 := by
  refine ⟨?_, by decide, by norm_num⟩
  simp [create_scene_segments]

theorem map_add_one_range (n : ℕ) : (List.range n).map (· + 1) = List.range' 1 n := by
  rw [List.range'_eq_map_range]
  exact List.map_congr_left (fun a _ => Nat.add_comm a 1)

/-- C1 (amended): for a nonempty change list the intervals are numbered
1..n strictly increasing, the FIRST interval starts at the FIRST change
point's timestamp (not at time 0: see the counterexample), each interval's
end_time is the next interval's start_time, and the last interval ends at the
formatted video duration. -/
theorem create_scene_segments_structure (changes : List SceneChange) (d : ℚ)
    (hne : changes ≠ []) :
    (create_scene_segments changes d).length = changes.length ∧
    (create_scene_segments changes d).map SceneSeg.scene_number =
      List.range' 1 changes.length ∧
    (create_scene_segments changes d).head?.map SceneSeg.start_time =
      changes.head?.map SceneChange.timestamp ∧
    List.Chain' (fun s1 s2 => s1.end_time = s2.start_time)
      (create_scene_segments changes d) ∧
    (create_scene_segments changes d).getLast?.map SceneSeg.end_time =
      some (format_timestamp d) := by
  have hE : changes.isEmpty = false := by
    cases changes with
    | nil => exact absurd rfl hne
    | cons c cs => rfl
  have hn : 0 < changes.length := List.length_pos.mpr hne
  have hdef : create_scene_segments changes d = changes.enum.map (fun p =>
      ⟨p.1 + 1, p.2.timestamp,
        if p.1 < changes.length - 1 then (changes.getD (p.1 + 1) default).timestamp
        else format_timestamp d,
        roundQ3 ((if p.1 < changes.length - 1 then (changes.getD (p.1 + 1) default).seconds
          else d) - p.2.seconds), [p.2]⟩) := by
    rw [create_scene_segments, hE]
    rfl
  have hlen : (create_scene_segments changes d).length = changes.length := by
    rw [hdef]
    simp
  refine ⟨hlen, ?_, ?_, ?_, ?_⟩
  · rw [hdef, List.map_map]
    have h1 : (changes.enum.map (Prod.fst)).map (· + 1) = List.range' 1 changes.length := by
      rw [List.enum_map_fst, map_add_one_range]
    rw [← h1, List.map_map]
    rfl
  · rw [hdef]
    cases changes with
    | nil => exact absurd rfl hne
    | cons c cs => simp
  · rw [List.chain'_iff_get]
    intro i hi
    rw [hlen] at hi
    have hi1 : i < changes.length := by omega
    have hi2 : i + 1 < changes.length := by omega
    have hd1 : changes.getD (i + 1) default = changes[i + 1] :=
      List.getD_eq_getElem changes default hi2
    simp only [hdef, List.get_eq_getElem, List.getElem_map, List.getElem_enum]
    simp only [if_pos (show i < changes.length - 1 by omega), hd1]
  · rw [hdef, List.getLast?_eq_getElem?]
    have hlast : changes.length - 1 < changes.length := by omega
    rw [List.length_map, List.enum_length,
      List.getElem?_eq_getElem (by simpa using hlast)]
    simp only [List.getElem_map, List.getElem_enum, Option.map_some']
    rw [if_neg (lt_irrefl (changes.length - 1))]

theorem create_scene_segments_structure_witness :
    (([⟨7, "0:00:05.000000", 5, 1/2⟩] : List SceneChange) ≠ []) ∧
    ((create_scene_segments [⟨7, "0:00:05.000000", 5, 1/2⟩] 10).length =
        ([⟨7, "0:00:05.000000", 5, 1/2⟩] : List SceneChange).length ∧
      (create_scene_segments [⟨7, "0:00:05.000000", 5, 1/2⟩] 10).map SceneSeg.scene_number =
        List.range' 1 ([⟨7, "0:00:05.000000", 5, 1/2⟩] : List SceneChange).length ∧
      (create_scene_segments [⟨7, "0:00:05.000000", 5, 1/2⟩] 10).head?.map
          SceneSeg.start_time =
        ([⟨7, "0:00:05.000000", 5, 1/2⟩] : List SceneChange).head?.map
          SceneChange.timestamp ∧
      List.Chain' (fun s1 s2 => s1.end_time = s2.start_time)
        (create_scene_segments [⟨7, "0:00:05.000000", 5, 1/2⟩] 10) ∧
      (create_scene_segments [⟨7, "0:00:05.000000", 5, 1/2⟩] 10).getLast?.map
          SceneSeg.end_time = some (format_timestamp 10)) :=
  ⟨List.cons_ne_nil _ _,
    create_scene_segments_structure [⟨7, "0:00:05.000000", 5, 1/2⟩] 10
      (List.cons_ne_nil _ _)⟩

/-! ## scene-extractor.py: parse_timestamp and extract_scene_changes

extract_scene_changes runs ffmpeg and parses its stderr; the pure parsing of
the captured stderr lines is embedded (the subprocess itself is outside the
core).  re.search is modelled by leftmost-position scanners for the two fixed
patterns of the source. -/

def digitsToNat (ds : List Char) : ℕ :=
  ds.foldl (fun acc c => acc * 10 + (c.toNat - 48)) 0

/-- Python float() on a digit string with an optional fraction part. -/
def parseFloatQ (l : List Char) : ℚ :=
  match splitOnChar '.' l with
  | [ip] => (digitsToNat ip : ℚ)
  | [ip, fp] => (digitsToNat ip : ℚ) + (digitsToNat fp : ℚ) / ((10 : ℚ) ^ fp.length)
  | _ => 0

/-- scene-extractor.py parse_timestamp: H:MM:SS.ffffff → seconds. -/
def parse_timestamp (timestamp_str : List Char) : ℚ :=
  match splitOnChar ':' timestamp_str with
  | [h, m, s] => (digitsToNat h : ℚ) * 3600 + (digitsToNat m : ℚ) * 60 + parseFloatQ s
  | _ => 0

/-- Python `pat in line` substring test. -/
def containsSub (pat : List Char) : List Char → Bool
  | [] => pat.isEmpty
  | c :: rest => pat.isPrefixOf (c :: rest) || containsSub pat rest

/-- re.search r'n:(\d+)': first "n:" followed by at least one digit; the
captured group is the maximal digit run. -/
def searchNColon : List Char → Option ℕ
  | [] => none
  | c :: rest =>
    if c = 'n' then
      match rest with
      | ':' :: rest2 =>
        let ds := rest2.takeWhile Char.isDigit
        if ds.isEmpty then searchNColon rest else some (digitsToNat ds)
      | _ => searchNColon rest
    else searchNColon rest

/-- Try to match \d+:\d+:\d+\.\d+ at the start of l, returning the match. -/
def matchPtsAt (l : List Char) : Option (List Char) :=
  let d1 := l.takeWhile Char.isDigit
  let r1 := l.dropWhile Char.isDigit
  if d1.isEmpty then none
  else
    match r1 with
    | ':' :: r2 =>
      let d2 := r2.takeWhile Char.isDigit
      let r3 := r2.dropWhile Char.isDigit
      if d2.isEmpty then none
      else
        match r3 with
        | ':' :: r4 =>
          let d3 := r4.takeWhile Char.isDigit
          let r5 := r4.dropWhile Char.isDigit
          if d3.isEmpty then none
          else
            match r5 with
            | '.' :: r6 =>
              let d4 := r6.takeWhile Char.isDigit
              if d4.isEmpty then none
              else some (d1 ++ [':'] ++ d2 ++ [':'] ++ d3 ++ ['.'] ++ d4)
            | _ => none
        | _ => none
    | _ => none

/-- re.search r'pts_time:(\d+:\d+:\d+\.\d+)': leftmost occurrence whose tail
matches the timestamp shape. -/
def searchPtsTime : List Char → Option (List Char)
  | [] => none
  | c :: rest =>
    if "pts_time:".data.isPrefixOf (c :: rest) then
      match matchPtsAt ((c :: rest).drop 9) with
      | some g => some g
      | none => searchPtsTime rest
    else searchPtsTime rest

def sceneChangeLe : SceneChange → SceneChange → Prop :=
  fun x y => x.seconds ≤ y.seconds

instance sceneChangeLe.decRel : DecidableRel sceneChangeLe :=
  fun x y => inferInstanceAs (Decidable (x.seconds ≤ y.seconds))

/-- The stderr-parsing loop of extract_scene_changes: keep lines containing
"select:" and "n:", extract frame number and pts_time, record the placeholder
score threshold + 0.1, and sort by seconds (Python's sorted is stable). -/
def extract_scene_changes_lines (lines : List String) (threshold : ℚ) : List SceneChange :=
  List.insertionSort sceneChangeLe
    (lines.filterMap (fun line =>
      if containsSub "select:".data line.data && containsSub "n:".data line.data then
        match searchNColon line.data with
        | some frame_number =>
          match searchPtsTime line.data with
          | some ts =>
            some ⟨frame_number, String.mk ts, parse_timestamp ts, threshold + 1/10⟩
          | none => none
        | none => none
      else none))

/-- C8: every scene-change point recorded by the extractor carries the
placeholder score threshold + 0.1 (the true detector score is never parsed
from the diagnostic text). -/
theorem extract_scene_changes_score_placeholder (lines : List String) (threshold : ℚ) :
    ∀ c ∈ extract_scene_changes_lines lines threshold,
      c.scene_score = threshold + 1/10 := by
  intro c hc
  rw [extract_scene_changes_lines, List.mem_insertionSort] at hc
  obtain ⟨line, hline, hf⟩ := List.mem_filterMap.mp hc
  by_cases hcond :
      (containsSub "select:".data line.data && containsSub "n:".data line.data) = true
  · rw [if_pos hcond] at hf
    cases hn : searchNColon line.data with
    | none => rw [hn] at hf; exact absurd hf (by simp)
    | some fn =>
      rw [hn] at hf
      cases hp : searchPtsTime line.data with
      | none => rw [hp] at hf; exact absurd hf (by simp)
      | some ts =>
        rw [hp] at hf
        rw [← Option.some.inj hf]
  · rw [if_neg hcond] at hf
    exact absurd hf (by simp)

theorem extract_scene_changes_score_placeholder_witness :
    (⟨5, "0:00:04.100000", parse_timestamp "0:00:04.100000".data,
        (2/5 : ℚ) + 1/10⟩ : SceneChange) ∈
      extract_scene_changes_lines [" select: n:5 pts_time:0:00:04.100000 pos:0"] (2/5) ∧
    (⟨5, "0:00:04.100000", parse_timestamp "0:00:04.100000".data,
        (2/5 : ℚ) + 1/10⟩ : SceneChange).scene_score = (2/5 : ℚ) + 1/10 := by
  have h1 : containsSub "select:".data " select: n:5 pts_time:0:00:04.100000 pos:0".data
      = true := by decide
  have h2 : containsSub "n:".data " select: n:5 pts_time:0:00:04.100000 pos:0".data
      = true := by decide
  have h3 : searchNColon " select: n:5 pts_time:0:00:04.100000 pos:0".data = some 5 := by
    decide
  have h4 : searchPtsTime " select: n:5 pts_time:0:00:04.100000 pos:0".data =
      some "0:00:04.100000".data := by decide
  have hmem : (⟨5, "0:00:04.100000", parse_timestamp "0:00:04.100000".data,
      (2/5 : ℚ) + 1/10⟩ : SceneChange) ∈
      extract_scene_changes_lines [" select: n:5 pts_time:0:00:04.100000 pos:0"] (2/5) := by
    rw [extract_scene_changes_lines, List.mem_insertionSort]
    simp only [List.filterMap_cons, List.filterMap_nil]
    rw [if_pos (by rw [h1, h2]; rfl)]
    rw [h3, h4]
    simp
  exact ⟨hmem, extract_scene_changes_score_placeholder _ _ _ hmem⟩

/-! ## des-group.py process_description_file, load_scene_data and main

File I/O is abstracted: a video's description JSON is an Option JVal (none for
a json.JSONDecodeError), its scene artifact an Option SceneDataJson (none when
the companion .scene.json does not exist or does not load), and every caught
per-video exception becomes a none result.  Dict fields read with .get are
Option fields.  asStringDict models that grouping only proceeds on a
string-to-string caption map (anything else raises inside the processing try
block and is caught). -/

/-- A parsed .scene.json: the three fields read by the merge, each possibly
absent (dict.get with a default). -/
structure SceneDataJson where
  scene_threshold : Option ℚ
  total_scenes : Option ℕ
  scenes : Option (List SceneSeg)

structure ScenesInfo where
  scene_threshold : ℚ
  total_scenes : ℕ
  scenes : List SceneSeg

/-- The merged per-video artifact: the "timestamps" list and the "scenes-info"
object of the output JSON. -/
structure MergedOutput where
  timestamps : List TimelineSeg
  scenes_info : ScenesInfo

/-- Lines 258-275 of process_description_file: skip when there is no scene
artifact, else build the merged output with defaults 0.4 and 0. -/
def mergeWithScene (grouped_timeline : List TimelineSeg)
    (scene_data : Option SceneDataJson) : Option MergedOutput :=
  match scene_data with
  | none => none
  | some sd =>
    some ⟨grouped_timeline,
      ⟨sd.scene_threshold.getD (2/5), sd.total_scenes.getD 0, sd.scenes.getD []⟩⟩

/-- main's per-file accounting (lines 459-476): processed_count counts some
results, failed_count counts none results — a missing-scene skip is a none. -/
def mainTally (results : List (Option MergedOutput)) : ℕ × ℕ :=
  results.foldl
    (fun counts r =>
      match r with
      | some _ => (counts.1 + 1, counts.2)
      | none => (counts.1, counts.2 + 1))
    (0, 0)

/-- Parsed JSON values as far as the structure dispatch inspects them. -/
inductive JVal where
  | jstr : String → JVal
  | jobj : List (String × JVal) → JVal
  | jother : JVal

/-- Python len() on a JSON value: defined for strings and objects, a TypeError
(modelled as none, caught by the surrounding except) otherwise. -/
def pyLen : JVal → Option ℕ
  | .jstr s => some s.length
  | .jobj fields => some fields.length
  | .jother => none

/-- Python str.startswith. -/
def pyStartsWith (s p : String) : Bool := p.data.isPrefixOf s.data

/-- Lines 238-253 of process_description_file: nested {"videos": {id: {...}}}
with exactly one video, or a direct map with some key starting with "000:",
anything else is an unknown/invalid structure (none). -/
def extractDescriptions : JVal → Option JVal
  | .jobj fields =>
    match fields.lookup "videos" with
    | some v =>
      match pyLen v with
      | none => none
      | some n =>
        if n = 1 then
          match v with
          | .jobj vfields => vfields.head?.map Prod.snd
          | _ => none
        else
          if (fields.map Prod.fst).any (fun k => pyStartsWith k "000:") then
            some (.jobj fields)
          else none
    | none =>
      if (fields.map Prod.fst).any (fun k => pyStartsWith k "000:") then
        some (.jobj fields)
      else none
  | _ => none

/-- The extracted descriptions value as a string-to-string dict; anything else
makes the downstream grouping raise, caught as a failed video. -/
def asStringDict : JVal → Option (List (String × String))
  | .jobj fields =>
    fields.foldr
      (fun kv acc =>
        match kv.2, acc with
        | .jstr s, some l => some ((kv.1, s) :: l)
        | _, _ => none)
      (some [])
  | _ => none

/-- process_description_file for one video: every failure path (decode error,
unknown structure, non-string captions, missing scene data) yields none before
any output is produced; otherwise the merged artifact. -/
def perVideo (parsed : Option JVal) (threshold : ℚ)
    (scene_data : Option SceneDataJson) : Option MergedOutput :=
  match parsed with
  | none => none
  | some data =>
    match extractDescriptions data with
    | none => none
    | some descriptions =>
      match asStringDict descriptions with
      | none => none
      | some json_data =>
        mergeWithScene (collapse_noisy_json json_data threshold) scene_data

/-- main's processing loop over all discovered description files. -/
def mainResults (inputs : List (Option JVal × Option SceneDataJson))
    (threshold : ℚ) : List (Option MergedOutput) :=
  inputs.map (fun input => perVideo input.1 threshold input.2)

theorem lookup_eq_none_of_not_mem {α : Type} :
    ∀ (l : List (String × α)) (k : String), k ∉ l.map Prod.fst → l.lookup k = none := by
  intro l
  induction l with
  | nil => intro k _; rfl
  | cons q tl ih =>
    intro k hk
    have h1 : k ≠ q.1 := by
      intro h
      exact hk (by simp [h])
    have hbeq : (k == q.1) = false := beq_eq_false_iff_ne.mpr h1
    rw [List.lookup, hbeq]
    exact ih k (fun h => hk (List.mem_cons_of_mem _ h))

theorem mainTally_go (results : List (Option MergedOutput)) :
    ∀ p f, results.foldl
      (fun counts r =>
        match r with
        | some _ => (counts.1 + 1, counts.2)
        | none => (counts.1, counts.2 + 1))
      (p, f) =
      (p + results.countP (fun r => r.isSome), f + results.countP (fun r => r.isNone)) := by
  induction results with
  | nil => intro p f; simp
  | cons r rs ih =>
    intro p f
    cases r with
    | some v =>
      rw [List.foldl_cons]
      rw [ih (p + 1) f]
      simp [List.countP_cons]
      omega
    | none =>
      rw [List.foldl_cons]
      rw [ih p (f + 1)]
      simp [List.countP_cons]
      omega

/-- C6 counterexample: a video whose scene artifact is missing produces no
merged output, and main's tally counts it in failed_count (second component),
i.e. exactly as a failure — there is no separate skipped record in the caller,
contradicting "recorded as skipped, not as an error or failure". -/
theorem merge_missing_scene_counted_failed :
    mergeWithScene [] none = none ∧
    mainTally [mergeWithScene [] none] = (0, 1) ∧
    (mainTally [mergeWithScene [] none]).2 ≠ 0 := by
  exact ⟨rfl, rfl, by decide⟩

/-- C6 (amended): a missing scene artifact makes the merge return nothing and
the caller count that video in its failed tally (the "skipping" notice is only
a verbose log); when the artifact exists the merged artifact is exactly
{timestamps: timeline, scenes-info: {scene_threshold, total_scenes, scenes}}
with the three fields copied from the artifact, scene_threshold defaulting to
0.4 and total_scenes to 0 when absent. -/
theorem merge_scene_data_behavior :
    (∀ tl : List TimelineSeg, mergeWithScene tl none = none) ∧
    (∀ (tl : List TimelineSeg) (sd : SceneDataJson),
      mergeWithScene tl (some sd) =
        some ⟨tl, ⟨sd.scene_threshold.getD (2/5), sd.total_scenes.getD 0,
          sd.scenes.getD []⟩⟩) ∧
    (∀ results : List (Option MergedOutput),
      mainTally results =
        (results.countP (fun r => r.isSome), results.countP (fun r => r.isNone))) := by
  refine ⟨fun tl => rfl, fun tl sd => rfl, fun results => ?_⟩
  rw [mainTally, mainTally_go results 0 0]
  simp

/-- C9: batch isolation.  main's loop length-preservingly maps the per-video
processing over every input, each result depends only on its own video's
input (a failure cannot abort or affect later videos), and each modelled
failure mode — undecodable JSON, unrecognized structure, missing scene
artifact — yields none, the no-output-written result. -/
theorem per_video_isolation (inputs : List (Option JVal × Option SceneDataJson))
    (threshold : ℚ) :
    (mainResults inputs threshold).length = inputs.length ∧
    (∀ i, i < inputs.length →
      (mainResults inputs threshold).getD i none =
        perVideo (inputs.getD i (none, none)).1 threshold
          (inputs.getD i (none, none)).2) ∧
    (∀ scene_data, perVideo none threshold scene_data = none) ∧
    (∀ (data : JVal) (scene_data : Option SceneDataJson),
      extractDescriptions data = none →
      perVideo (some data) threshold scene_data = none) ∧
    (∀ parsed, perVideo parsed threshold none = none) := by
  refine ⟨by simp [mainResults], ?_, fun scene_data => rfl, ?_, ?_⟩
  · intro i hi
    have hi' : i < (mainResults inputs threshold).length := by simpa [mainResults] using hi
    rw [List.getD_eq_getElem _ _ hi', List.getD_eq_getElem _ _ hi]
    simp [mainResults]
  · intro data scene_data hE
    simp [perVideo, hE]
  · intro parsed
    cases parsed with
    | none => rfl
    | some data =>
      cases hE : extractDescriptions data with
      | none => simp [perVideo, hE]
      | some descs =>
        cases hA : asStringDict descs with
        | none => simp [perVideo, hE, hA]
        | some m => simp [perVideo, hE, hA, mergeWithScene]

def c9SampleInputs : List (Option JVal × Option SceneDataJson) :=
  [(none, none), (some (JVal.jobj [("000:00:00.000", JVal.jstr "hi")]), none)]

theorem per_video_isolation_witness :
    0 < c9SampleInputs.length ∧
    extractDescriptions JVal.jother = none ∧
    ((mainResults c9SampleInputs (1/2)).length = c9SampleInputs.length ∧
      (mainResults c9SampleInputs (1/2)).getD 0 none =
        perVideo (c9SampleInputs.getD 0 (none, none)).1 (1/2)
          (c9SampleInputs.getD 0 (none, none)).2 ∧
      perVideo none (1/2) none = none ∧
      perVideo (some JVal.jother) (1/2) none = none ∧
      perVideo (some (JVal.jobj [("000:00:00.000", JVal.jstr "hi")])) (1/2) none = none) := by
  have T := per_video_isolation c9SampleInputs (1/2)
  exact ⟨by simp [c9SampleInputs], rfl,
    T.1, T.2.1 0 (by simp [c9SampleInputs]), T.2.2.1 none,
    T.2.2.2.1 JVal.jother none rfl,
    T.2.2.2.2 (some (JVal.jobj [("000:00:00.000", JVal.jstr "hi")]))⟩

/-- C10: a flat (non-nested) caption map is accepted only when some top-level
key starts with "000:": if no key has that prefix (and there is no "videos"
nesting key, as with timestamp-shaped keys), the file is classified as an
unknown structure and the video is skipped with no output. -/
theorem flat_map_requires_marker (fields : List (String × JVal)) (threshold : ℚ)
    (scene_data : Option SceneDataJson)
    (hvideos : "videos" ∉ fields.map Prod.fst)
    (hpre : ∀ k ∈ fields.map Prod.fst, pyStartsWith k "000:" = false) :
    extractDescriptions (JVal.jobj fields) = none ∧
    perVideo (some (JVal.jobj fields)) threshold scene_data = none := by
  have hlook : fields.lookup "videos" = none :=
    lookup_eq_none_of_not_mem fields "videos" hvideos
  have hany : (fields.map Prod.fst).any (fun k => pyStartsWith k "000:") = false := by
    rw [List.any_eq_false]
    intro k hk
    simp [hpre k hk]
  have hE : extractDescriptions (JVal.jobj fields) = none := by
    rw [extractDescriptions, hlook, hany]
    rfl
  exact ⟨hE, by simp [perVideo, hE]⟩

theorem flat_map_requires_marker_witness :
    ("videos" ∉ ([("00:00:01.000", JVal.jstr "hi")].map Prod.fst)) ∧
    (∀ k ∈ ([("00:00:01.000", JVal.jstr "hi")].map Prod.fst),
      pyStartsWith k "000:" = false) ∧
    extractDescriptions (JVal.jobj [("00:00:01.000", JVal.jstr "hi")]) = none ∧
    perVideo (some (JVal.jobj [("00:00:01.000", JVal.jstr "hi")])) (1/2) none = none := by
  have h1 : "videos" ∉ ([("00:00:01.000", JVal.jstr "hi")].map Prod.fst) := by
    simp
  have h2 : ∀ k ∈ ([("00:00:01.000", JVal.jstr "hi")].map Prod.fst),
      pyStartsWith k "000:" = false := by
    intro k hk
    simp at hk
    subst hk
    decide
  exact ⟨h1, h2,
    (flat_map_requires_marker _ (1/2) none h1 h2).1,
    (flat_map_requires_marker _ (1/2) none h1 h2).2⟩
